import Mathlib

/-!
Verification of the SAN reliability and load-redistribution repository.

The development shallowly embeds the Python modules `load_redistribution.py`,
`reliability_bdd.py`, `aftm_model.py`, `mitigation_schemes.py` and
`san_topology.py`.  Python dictionaries become association lists over string
keys (`Dict`), Python floats become exact rationals `ℚ` (the algorithms use
only field operations, so every identity proved here is the exact-arithmetic
content of the code), and `math.exp` becomes `Real.exp`.  Functions that can
raise become `Except`-valued.  Insertion order of Python dicts is preserved by
the association-list operations; Python's `==` on dicts (content equality,
order ignored) is the relation `Dict.Equiv`.
-/

namespace SanProj

abbrev NodeId := String

/-- A Python dict with string keys, as an insertion-ordered association list. -/
abbrev Dict (α : Type) := List (NodeId × α)

/-- First-match lookup; on the no-duplicate-keys lists produced by dict
operations this is Python `d[k]` / `d.get(k)`. -/
def Dict.lookup {α : Type} : Dict α → NodeId → Option α
  | [], _ => none
  | (a, v) :: t, k => if a = k then some v else Dict.lookup t k

/-- Python `d.get(k, dflt)`. -/
def Dict.getD {α : Type} (d : Dict α) (k : NodeId) (dflt : α) : α :=
  (Dict.lookup d k).getD dflt

/-- Python `d[k] = v`: replace in place when the key is present, else append. -/
def Dict.set {α : Type} : Dict α → NodeId → α → Dict α
  | [], k, v => [(k, v)]
  | (a, w) :: t, k, v => if a = k then (a, v) :: t else (a, w) :: Dict.set t k v

def Dict.keys {α : Type} (d : Dict α) : List NodeId := d.map Prod.fst

/-- `sum(d.values())`. -/
def Dict.sumValues (d : Dict ℚ) : ℚ := (d.map Prod.snd).sum

/-- The dict comprehension over items, `\x7bk: float(v) for k, v in d.items()\x7d`. -/
def Dict.copyD (d : Dict ℚ) : Dict ℚ := d.foldl (fun acc p => Dict.set acc p.1 p.2) []

/-- The dict comprehension `\x7bn: 0.0 for n in d.keys()\x7d`. -/
def Dict.zerosOf (d : Dict ℚ) : Dict ℚ := d.foldl (fun acc p => Dict.set acc p.1 0) []

/-- Python `==` on dicts: same keys, same values, order ignored. -/
def Dict.Equiv (d₁ d₂ : Dict ℚ) : Prop := ∀ k, Dict.lookup d₁ k = Dict.lookup d₂ k

/-- `delta[j] = delta.get(j, 0.0) + w`, one accumulation step. -/
def Dict.inc (d : Dict ℚ) (j : NodeId) (w : ℚ) : Dict ℚ :=
  Dict.set d j (Dict.getD d j 0 + w)

/-- A run of accumulation steps `d[j] = d.get(j, 0.0) + w` over the pairs of `l`. -/
def Dict.incApply (d : Dict ℚ) (l : List (NodeId × ℚ)) : Dict ℚ :=
  l.foldl (fun acc p => Dict.inc acc p.1 p.2) d

/-- `list(dict.fromkeys(l))`: drop later duplicates, keep first occurrences. -/
def dedupFirstAux : List NodeId → List NodeId → List NodeId
  | _, [] => []
  | seen, x :: xs => if x ∈ seen then dedupFirstAux seen xs else x :: dedupFirstAux (x :: seen) xs

def dedupFirst (l : List NodeId) : List NodeId := dedupFirstAux [] l

/-! ## load_redistribution.py -/

/-- `Nk = list(dict.fromkeys([k] + neighbors_map.get(k, [])))`. -/
def closureNk (neighbors_map : Dict (List NodeId)) (k : NodeId) : List NodeId :=
  dedupFirst (k :: Dict.getD neighbors_map k [])

/-- The denominator `sum(degrees.get(m, 0) ** beta for m in Nk)`. -/
def closureDenom (degrees : Dict ℚ) (beta : ℕ) (Nk : List NodeId) : ℚ :=
  (Nk.map fun m => Dict.getD degrees m 0 ^ beta).sum

/-- The per-receiver shares `ΔL_jk` of an amount over a closure: even split when
the denominator is not positive, degree-weighted otherwise. -/
def shareDeltas (degrees : Dict ℚ) (beta : ℕ) (Nk : List NodeId) (amount : ℚ) :
    List (NodeId × ℚ) :=
  if closureDenom degrees beta Nk ≤ 0 then
    Nk.map fun j => (j, amount / (Nk.length : ℚ))
  else
    Nk.map fun j => (j, amount * (Dict.getD degrees j 0 ^ beta / closureDenom degrees beta Nk))

/-- The delta contributions of one source `k` in full mode: skipped when `k` is
not a key of the snapshot or its load is not positive, else its full load is
shared over its closure. -/
def fullSourceDeltas (L_before degrees : Dict ℚ) (neighbors_map : Dict (List NodeId))
    (beta : ℕ) (k : NodeId) : List (NodeId × ℚ) :=
  if (Dict.lookup L_before k).isNone then []
  else if Dict.getD L_before k 0 ≤ 0 then []
  else shareDeltas degrees beta (closureNk neighbors_map k) (Dict.getD L_before k 0)

/-- One step of the full-mode subtraction loop: `if k in new_loads:
new_loads[k] = new_loads.get(k, 0.0) - L_before.get(k, 0.0)`. -/
def subStepFull (L_before n : Dict ℚ) (k : NodeId) : Dict ℚ :=
  if (Dict.lookup n k).isSome then
    Dict.set n k (Dict.getD n k 0 - Dict.getD L_before k 0)
  else n

/-- `proportional_redistribute_sources_full(loads, degrees, sources, neighbors_map, beta)`. -/
def proportional_redistribute_sources_full (loads degrees : Dict ℚ) (sources : List NodeId)
    (neighbors_map : Dict (List NodeId)) (beta : ℕ) : Dict ℚ :=
  let L_before := Dict.copyD loads
  let delta_total := sources.foldl
    (fun dt k => Dict.incApply dt (fullSourceDeltas L_before degrees neighbors_map beta k))
    (Dict.zerosOf loads)
  let new0 := Dict.copyD L_before
  let new1 := sources.foldl (subStepFull L_before) new0
  Dict.incApply new1 delta_total

/-- The amount a source redistributes in per-paper mode: `max(0, Lk - thr)` for
`"Sw2"` when a threshold is supplied, the full load otherwise. -/
def perPaperAmount (sw2_threshold : Option ℚ) (k : NodeId) (Lk : ℚ) : ℚ :=
  match sw2_threshold with
  | some thr => if k = "Sw2" then max 0 (Lk - thr) else Lk
  | none => Lk

/-- The delta contributions of one source `k` in per-paper mode. -/
def perPaperSourceDeltas (L_before degrees : Dict ℚ) (neighbors_map : Dict (List NodeId))
    (beta : ℕ) (sw2_threshold : Option ℚ) (k : NodeId) : List (NodeId × ℚ) :=
  if (Dict.lookup L_before k).isNone then []
  else if Dict.getD L_before k 0 ≤ 0 then []
  else if perPaperAmount sw2_threshold k (Dict.getD L_before k 0) ≤ 0 then []
  else shareDeltas degrees beta (closureNk neighbors_map k)
    (perPaperAmount sw2_threshold k (Dict.getD L_before k 0))

/-- One step of the per-paper subtraction loop: sources absent from the
snapshot are skipped, and each present source is reduced by its redistributed
amount. -/
def subStepPerPaper (sw2_threshold : Option ℚ) (L_before n : Dict ℚ) (k : NodeId) : Dict ℚ :=
  if (Dict.lookup L_before k).isNone then n
  else Dict.set n k (Dict.getD n k 0 - perPaperAmount sw2_threshold k (Dict.getD L_before k 0))

/-- `proportional_redistribute_sources_per_paper(loads, degrees, sources, neighbors_map,
beta, sw2_threshold)`. -/
def proportional_redistribute_sources_per_paper (loads degrees : Dict ℚ)
    (sources : List NodeId) (neighbors_map : Dict (List NodeId)) (beta : ℕ)
    (sw2_threshold : Option ℚ) : Dict ℚ :=
  let L_before := Dict.copyD loads
  let delta_total := sources.foldl
    (fun dt k => Dict.incApply dt (perPaperSourceDeltas L_before degrees neighbors_map beta
      sw2_threshold k))
    (Dict.zerosOf loads)
  let new0 := Dict.copyD L_before
  let new1 := sources.foldl (subStepPerPaper sw2_threshold L_before) new0
  Dict.incApply new1 delta_total

/-! ## reliability_bdd.py -/

/-- The nine expected component keys of `system_reliability`. -/
def expectedKeys : List NodeId :=
  ["Sw1", "Sw2", "Sw3", "Sw4", "Sw5", "Sr1", "Sr2", "Sa1", "Sa2"]

/-- Bit `i` of the mask marks component `i` of `expectedKeys` as DOWN. -/
def stateDown (mask : ℕ) (comp : NodeId) : Bool :=
  mask.testBit (expectedKeys.findIdx (· == comp))

/-- The fault-tree predicate `SAN_Failure` over a down-state assignment. -/
def sanFailure (down : NodeId → Bool) : Bool :=
  let sr1_down := down "Sr1" || (down "Sw5" && down "Sw4")
  let sr2_down := down "Sr2" || (down "Sw3" && down "Sw5")
  let server_failure := sr1_down && sr2_down
  let sa1_down := down "Sa1" || (down "Sw5" && down "Sw2")
  let sa2_down := down "Sa2" || (down "Sw3" && down "Sw2")
  let storage_failure := sa1_down && sa2_down
  let path_failure := (down "Sw1" && down "Sw2" && down "Sw3") &&
    (down "Sw3" && down "Sw4" && down "Sw5")
  server_failure || storage_failure || path_failure

/-- The joint probability of one mask: product over components of the up- or
down-probability selected by the mask's bits. -/
def maskProb (r : Dict ℚ) (mask : ℕ) : ℚ :=
  ((List.range expectedKeys.length).map fun i =>
    if mask.testBit i then 1 - Dict.getD r (expectedKeys.getD i "") 0
    else Dict.getD r (expectedKeys.getD i "") 0).prod

/-- `P_failure`: the sum over all `2^9` masks of the joint probabilities whose
state satisfies the fault tree, with the `prob == 0` states skipped. -/
def pFailure (r : Dict ℚ) : ℚ :=
  ((List.range (2 ^ expectedKeys.length)).map fun mask =>
    if maskProb r mask = 0 then 0
    else if sanFailure (stateDown mask) then maskProb r mask else 0).sum

/-- `system_reliability(switch_reliabilities)`: a missing-key error at the first
absent expected key, else `max(0.0, min(1.0, 1.0 - P_failure))`. -/
def system_reliability (switch_reliabilities : Dict ℚ) : Except String ℚ :=
  match expectedKeys.find? (fun k => (Dict.lookup switch_reliabilities k).isNone) with
  | some k => Except.error ("Missing reliability for " ++ k)
  | none => Except.ok (max 0 (min 1 (1 - pFailure switch_reliabilities)))

/-! ## aftm_model.py -/

/-- `lambda_L(base_lambda, L, alpha) = base_lambda * L ** alpha`. -/
def lambda_L (base_lambda L : ℚ) (alpha : ℕ) : ℚ := base_lambda * L ^ alpha

/-- `reliability_R(t, L, base_lambda, alpha)`: an invalid-input error for
negative `t`, else `exp(-lambda_L(base_lambda, L, alpha) * t)`. -/
noncomputable def reliability_R (t L base_lambda : ℚ) (alpha : ℕ) : Except String ℝ :=
  if t < 0 then Except.error "Time t must be non-negative"
  else Except.ok (Real.exp (-((lambda_L base_lambda L alpha : ℚ) : ℝ) * ((t : ℚ) : ℝ)))

/-! ## mitigation_schemes.py -/

structure MitigationScheme where
  scheme_id : ℕ
  initial_threshold : ℚ
  s : ℚ
  top_k : ℕ
  dynamic_threshold : ℚ

/-- `self.scheme_id in (3, 4)`. -/
def MitigationScheme.is_dynamic (m : MitigationScheme) : Bool :=
  m.scheme_id == 3 || m.scheme_id == 4

/-- `apply_after_trigger`: for dynamic schemes, `dynamic_threshold =
max(0.0, dynamic_threshold - s)`; otherwise unchanged. -/
def MitigationScheme.apply_after_trigger (m : MitigationScheme) : MitigationScheme :=
  if m.is_dynamic then { m with dynamic_threshold := max 0 (m.dynamic_threshold - m.s) }
  else m

/-- The predefined Φ override tables, keyed by scheme id (Tables 3-6). -/
def predefined_phi (scheme_id : ℕ) : Option (List (List NodeId)) :=
  if scheme_id = 1 then
    some [["Sw1", "Sw2", "Sw3"], ["Sw2", "Sw3", "Sw5"], ["Sw2", "Sw3", "Sw4"]]
  else if scheme_id = 2 then
    some [["Sw2", "Sw1", "Sw5"], ["Sw2", "Sw3", "Sw5"], ["Sw2", "Sw3", "Sw4"]]
  else if scheme_id = 3 then
    some [["Sw1", "Sw2", "Sw3"], ["Sw2", "Sw3", "Sw5"], ["Sw2", "Sw3", "Sw4"]]
  else if scheme_id = 4 then
    some [["Sw2", "Sw1", "Sw5"], ["Sw2", "Sw3", "Sw5"], ["Sw2", "Sw3", "Sw4"]]
  else none

/-- Stable ascending insertion by key, matching Python's stable `sorted`. -/
def insertAscByKey (key : NodeId → ℚ) (x : NodeId) : List NodeId → List NodeId
  | [] => [x]
  | y :: ys => if key x ≤ key y then x :: y :: ys else y :: insertAscByKey key x ys

def sortByKey (key : NodeId → ℚ) : List NodeId → List NodeId
  | [] => []
  | x :: xs => insertAscByKey key x (sortByKey key xs)

/-- `select_sources(loads, reliabilities, overloaded_switch, all_switches, redis_index)`. -/
def MitigationScheme.select_sources (m : MitigationScheme) (loads reliabilities : Dict ℚ)
    (overloaded_switch : NodeId) (all_switches : List NodeId) (redis_index : ℤ) :
    List NodeId :=
  match predefined_phi m.scheme_id with
  | some phi_list =>
    let idx0 : ℤ := redis_index - 1
    let idx1 : ℤ := if idx0 < 0 then 0 else idx0
    let idx : ℤ := if (phi_list.length : ℤ) ≤ idx1 then (phi_list.length : ℤ) - 1 else idx1
    let phi := (phi_list.getD idx.toNat []).filter
      (fun a => all_switches.contains a && a != overloaded_switch)
    phi.take m.top_k
  | none =>
    let candidates := all_switches.filter (fun a => a != overloaded_switch)
    if candidates.isEmpty then []
    else if m.scheme_id = 1 ∨ m.scheme_id = 3 then
      (sortByKey (fun x => Dict.getD reliabilities x 1) candidates).take m.top_k
    else
      (sortByKey (fun x => -(Dict.getD loads x 0)) candidates).take m.top_k

/-! ## san_topology.py -/

/-- The switch-to-switch degree table of `SANTopology`. -/
def topoDegrees : Dict ℚ :=
  [("Sw1", 3), ("Sw2", 4), ("Sw3", 3), ("Sw4", 4), ("Sw5", 4)]

/-- The adjacency table of `SANTopology`. -/
def topoAdj : Dict (List NodeId) :=
  [("Sr1", ["Sw4", "Sw5"]), ("Sr2", ["Sw3", "Sw5"]), ("Sa1", ["Sw1", "Sw2"]),
   ("Sa2", ["Sw2", "Sw3"]),
   ("Sw1", ["Sa1", "Sw2", "Sw4", "Sw5"]),
   ("Sw2", ["Sa1", "Sa2", "Sw1", "Sw3", "Sw4", "Sw5"]),
   ("Sw3", ["Sr2", "Sa2", "Sw2", "Sw4", "Sw5"]),
   ("Sw4", ["Sr1", "Sw1", "Sw2", "Sw3", "Sw5"]),
   ("Sw5", ["Sr2", "Sw1", "Sw2", "Sw3", "Sw4"])]

/-- `SANTopology.degree(switch) = self.degrees.get(switch, 0)`. -/
def topoDegree (switch : NodeId) : ℚ := Dict.getD topoDegrees switch 0

/-- `SANTopology.neighbors(node) = list(self.adj.get(node, []))`. -/
def topoNeighbors (node : NodeId) : List NodeId := Dict.getD topoAdj node []

/-! ## Association-list lemmas -/

@[simp]
theorem Dict.lookup_nil {α : Type} (x : NodeId) : Dict.lookup ([] : Dict α) x = none := rfl

@[simp]
theorem Dict.lookup_cons_self {α : Type} (a : NodeId) (w : α) (t : Dict α) :
    Dict.lookup ((a, w) :: t) a = some w := by
  simp [Dict.lookup]

@[simp]
theorem Dict.lookup_cons_ne {α : Type} {a x : NodeId} (h : ¬a = x) (w : α) (t : Dict α) :
    Dict.lookup ((a, w) :: t) x = Dict.lookup t x := by
  simp [Dict.lookup, h]

@[simp]
theorem Dict.set_nil {α : Type} (k : NodeId) (v : α) :
    Dict.set ([] : Dict α) k v = [(k, v)] := rfl

@[simp]
theorem Dict.set_cons_self {α : Type} (a : NodeId) (w v : α) (t : Dict α) :
    Dict.set ((a, w) :: t) a v = (a, v) :: t := by
  simp [Dict.set]

@[simp]
theorem Dict.set_cons_ne {α : Type} {a k : NodeId} (h : ¬a = k) (w v : α) (t : Dict α) :
    Dict.set ((a, w) :: t) k v = (a, w) :: Dict.set t k v := by
  simp [Dict.set, h]

theorem Dict.lookup_set {α : Type} (d : Dict α) (k x : NodeId) (v : α) :
    Dict.lookup (Dict.set d k v) x = if k = x then some v else Dict.lookup d x := by
  induction d with
  | nil =>
    by_cases hkx : k = x
    · subst hkx
      simp
    · simp [hkx]
  | cons p t ih =>
    obtain ⟨a, w⟩ := p
    by_cases hak : a = k
    · subst hak
      rw [Dict.set_cons_self]
      by_cases hax : a = x
      · subst hax
        simp
      · simp [hax]
    · rw [Dict.set_cons_ne hak]
      by_cases hax : a = x
      · subst hax
        have hka : ¬k = a := fun hh => hak hh.symm
        simp [hka]
      · simp [hax, ih]

theorem Dict.lookup_eq_none_of_not_mem_keys {α : Type} {d : Dict α} {x : NodeId}
    (h : x ∉ Dict.keys d) : Dict.lookup d x = none := by
  induction d with
  | nil => rfl
  | cons p t ih =>
    obtain ⟨a, w⟩ := p
    simp only [Dict.keys, List.map_cons, List.mem_cons, not_or] at h
    have hax : ¬a = x := fun hh => h.1 hh.symm
    rw [Dict.lookup_cons_ne hax]
    exact ih (by simpa [Dict.keys] using h.2)

theorem Dict.mem_keys_of_lookup_isSome {α : Type} {d : Dict α} {x : NodeId}
    (h : (Dict.lookup d x).isSome) : x ∈ Dict.keys d := by
  by_contra hx
  rw [Dict.lookup_eq_none_of_not_mem_keys hx] at h
  simp at h

theorem Dict.mem_of_lookup_eq_some {α : Type} {d : Dict α} {x : NodeId} {v : α}
    (h : Dict.lookup d x = some v) : (x, v) ∈ d := by
  induction d with
  | nil => simp at h
  | cons p t ih =>
    obtain ⟨a, w⟩ := p
    by_cases hax : a = x
    · subst hax
      rw [Dict.lookup_cons_self] at h
      injection h with h
      subst h
      exact List.mem_cons_self _ _
    · rw [Dict.lookup_cons_ne hax] at h
      exact List.mem_cons_of_mem _ (ih h)

theorem Dict.keys_set {α : Type} (d : Dict α) (k : NodeId) (v : α) :
    Dict.keys (Dict.set d k v) = if k ∈ Dict.keys d then Dict.keys d
      else Dict.keys d ++ [k] := by
  induction d with
  | nil => simp [Dict.keys]
  | cons p t ih =>
    obtain ⟨a, w⟩ := p
    by_cases hak : a = k
    · subst hak
      simp [Dict.keys]
    · have hka : ¬k = a := fun h => hak h.symm
      rw [Dict.set_cons_ne hak]
      simp only [Dict.keys, List.map_cons] at *
      rw [ih]
      by_cases hk : k ∈ List.map Prod.fst t
      · simp [List.mem_cons, hka, hk]
      · simp [List.mem_cons, hka, hk]

theorem Dict.keys_set_nodup {α : Type} {d : Dict α} (h : (Dict.keys d).Nodup)
    (k : NodeId) (v : α) : (Dict.keys (Dict.set d k v)).Nodup := by
  rw [Dict.keys_set]
  by_cases hk : k ∈ Dict.keys d
  · simpa [hk]
  · simpa [hk, List.nodup_append] using h

theorem Dict.mem_set {α : Type} {d : Dict α} {k : NodeId} {v : α} {p : NodeId × α}
    (h : p ∈ Dict.set d k v) : p ∈ d ∨ p = (k, v) := by
  induction d with
  | nil => simpa using h
  | cons q t ih =>
    obtain ⟨a, w⟩ := q
    by_cases hak : a = k
    · subst hak
      rw [Dict.set_cons_self] at h
      rcases List.mem_cons.mp h with h1 | h1
      · exact Or.inr h1
      · exact Or.inl (List.mem_cons_of_mem _ h1)
    · rw [Dict.set_cons_ne hak] at h
      rcases List.mem_cons.mp h with h1 | h1
      · refine Or.inl ?_
        rw [h1]
        exact List.mem_cons_self _ _
      · rcases ih h1 with h2 | h2
        · exact Or.inl (List.mem_cons_of_mem _ h2)
        · exact Or.inr h2

theorem Dict.sumValues_set (d : Dict ℚ) (k : NodeId) (v : ℚ) :
    Dict.sumValues (Dict.set d k v) = Dict.sumValues d + v - Dict.getD d k 0 := by
  induction d with
  | nil => simp [Dict.sumValues, Dict.getD]
  | cons p t ih =>
    obtain ⟨a, w⟩ := p
    by_cases hak : a = k
    · subst hak
      rw [Dict.set_cons_self]
      simp only [Dict.sumValues, List.map_cons, List.sum_cons, Dict.getD,
        Dict.lookup_cons_self, Option.getD_some]
      ring
    · rw [Dict.set_cons_ne hak]
      simp only [Dict.sumValues, List.map_cons, List.sum_cons, Dict.getD,
        Dict.lookup_cons_ne hak] at *
      rw [ih]
      ring

@[simp]
theorem Dict.sumValues_nil : Dict.sumValues [] = 0 := rfl

@[simp]
theorem Dict.sumValues_cons (p : NodeId × ℚ) (t : Dict ℚ) :
    Dict.sumValues (p :: t) = p.2 + Dict.sumValues t := by
  simp [Dict.sumValues]

theorem Dict.sumValues_inc (d : Dict ℚ) (j : NodeId) (w : ℚ) :
    Dict.sumValues (Dict.inc d j w) = Dict.sumValues d + w := by
  rw [Dict.inc, Dict.sumValues_set]
  ring

theorem Dict.sumValues_incApply (d : Dict ℚ) (l : List (NodeId × ℚ)) :
    Dict.sumValues (Dict.incApply d l) = Dict.sumValues d + Dict.sumValues l := by
  induction l generalizing d with
  | nil => simp [Dict.incApply]
  | cons p t ih =>
    rw [show Dict.incApply d (p :: t) = Dict.incApply (Dict.inc d p.1 p.2) t from rfl]
    rw [ih, Dict.sumValues_inc, Dict.sumValues_cons]
    ring

theorem Dict.foldl_set_eq_append {α : Type} (g : NodeId × ℚ → α) :
    ∀ (d : Dict ℚ) (acc : Dict α), (Dict.keys d).Nodup →
      (∀ k, k ∈ Dict.keys acc → k ∉ Dict.keys d) →
      d.foldl (fun acc p => Dict.set acc p.1 (g p)) acc = acc ++ d.map (fun p => (p.1, g p))
  | [], acc, _, _ => by simp
  | (k, v) :: t, acc, hnd, hdisj => by
    have hk : k ∉ Dict.keys acc := fun hk => hdisj k hk (by simp [Dict.keys])
    have hset : Dict.set acc k (g (k, v)) = acc ++ [(k, g (k, v))] := by
      clear hdisj hnd
      induction acc with
      | nil => simp
      | cons q r ih =>
        obtain ⟨a, w⟩ := q
        simp only [Dict.keys, List.map_cons, List.mem_cons, not_or] at hk
        have hak : ¬a = k := fun hh => hk.1 hh.symm
        rw [Dict.set_cons_ne hak, List.cons_append]
        rw [ih (by simpa [Dict.keys] using hk.2)]
    simp only [List.foldl_cons, List.map_cons]
    rw [hset, Dict.foldl_set_eq_append g t (acc ++ [(k, g (k, v))])]
    · simp
    · exact (List.nodup_cons.mp (by simpa [Dict.keys] using hnd)).2
    · intro a ha
      have hkt : k ∉ Dict.keys t :=
        (List.nodup_cons.mp (by simpa [Dict.keys] using hnd)).1
      simp only [Dict.keys, List.map_append, List.mem_append] at ha
      rcases ha with ha | ha
      · intro hat
        refine hdisj a (by simpa [Dict.keys] using ha) ?_
        simp only [Dict.keys, List.map_cons, List.mem_cons]
        exact Or.inr (by simpa [Dict.keys] using hat)
      · simp at ha
        subst ha
        exact hkt

theorem Dict.copyD_eq_self {d : Dict ℚ} (h : (Dict.keys d).Nodup) : Dict.copyD d = d := by
  have := Dict.foldl_set_eq_append (fun p => p.2) d [] h (by simp [Dict.keys])
  simpa [Dict.copyD] using this

theorem Dict.zerosOf_eq_map {d : Dict ℚ} (h : (Dict.keys d).Nodup) :
    Dict.zerosOf d = d.map fun p => (p.1, (0 : ℚ)) := by
  have := Dict.foldl_set_eq_append (fun _ => (0 : ℚ)) d [] h (by simp [Dict.keys])
  simpa [Dict.zerosOf] using this

theorem Dict.foldl_set_keys_nodup {α : Type} (g : NodeId × ℚ → α) :
    ∀ (d : Dict ℚ) (acc : Dict α), (Dict.keys acc).Nodup →
      (Dict.keys (d.foldl (fun acc p => Dict.set acc p.1 (g p)) acc)).Nodup
  | [], _, h => h
  | (k, v) :: t, _, h =>
    Dict.foldl_set_keys_nodup g t _ (Dict.keys_set_nodup h k (g (k, v)))

theorem Dict.zerosOf_keys_nodup (d : Dict ℚ) : (Dict.keys (Dict.zerosOf d)).Nodup :=
  Dict.foldl_set_keys_nodup (fun _ => (0 : ℚ)) d [] (by simp [Dict.keys])

theorem Dict.copyD_keys_nodup (d : Dict ℚ) : (Dict.keys (Dict.copyD d)).Nodup :=
  Dict.foldl_set_keys_nodup (fun p => p.2) d [] (by simp [Dict.keys])

theorem Dict.foldl_set_values {α : Type} (g : NodeId × ℚ → α) (P : α → Prop)
    (hP : ∀ p, P (g p)) :
    ∀ (d : Dict ℚ) (acc : Dict α), (∀ p ∈ acc, P p.2) →
      ∀ p ∈ d.foldl (fun acc q => Dict.set acc q.1 (g q)) acc, P p.2
  | [], _, hacc => hacc
  | (k, v) :: t, acc, hacc => by
    refine Dict.foldl_set_values g P hP t _ ?_
    intro p hp
    rcases Dict.mem_set hp with h | h
    · exact hacc p h
    · rw [h]
      exact hP (k, v)

theorem Dict.zerosOf_values (d : Dict ℚ) : ∀ p ∈ Dict.zerosOf d, p.2 = (0 : ℚ) :=
  Dict.foldl_set_values (fun _ => (0 : ℚ)) (fun x => x = 0) (fun _ => rfl) d []
    (by simp)

theorem Dict.sumValues_zerosOf (d : Dict ℚ) : Dict.sumValues (Dict.zerosOf d) = 0 := by
  refine List.sum_eq_zero ?_
  intro x hx
  simp only [Dict.sumValues] at hx
  obtain ⟨p, hp, rfl⟩ := List.mem_map.mp hx
  exact Dict.zerosOf_values d p hp

/-! ## Dict equivalence (Python `==`) and simultaneity lemmas -/

theorem Dict.Equiv.rfl {d : Dict ℚ} : Dict.Equiv d d := fun _ => Eq.refl _

theorem Dict.Equiv.of_eq {d₁ d₂ : Dict ℚ} (h : d₁ = d₂) : Dict.Equiv d₁ d₂ := by
  subst h
  exact Dict.Equiv.rfl

theorem Dict.Equiv.trans {d₁ d₂ d₃ : Dict ℚ} (h₁ : Dict.Equiv d₁ d₂)
    (h₂ : Dict.Equiv d₂ d₃) : Dict.Equiv d₁ d₃ := fun k => (h₁ k).trans (h₂ k)

theorem Dict.Equiv.getD_eq {d₁ d₂ : Dict ℚ} (h : Dict.Equiv d₁ d₂) (k : NodeId) (dflt : ℚ) :
    Dict.getD d₁ k dflt = Dict.getD d₂ k dflt := by
  rw [Dict.getD, Dict.getD, h k]

theorem Dict.lookup_inc (d : Dict ℚ) (j : NodeId) (w : ℚ) (x : NodeId) :
    Dict.lookup (Dict.inc d j w) x =
      if j = x then some (Dict.getD d j 0 + w) else Dict.lookup d x := by
  rw [Dict.inc, Dict.lookup_set]

theorem Dict.getD_inc (d : Dict ℚ) (j : NodeId) (w : ℚ) (x : NodeId) :
    Dict.getD (Dict.inc d j w) x 0 =
      if j = x then Dict.getD d x 0 + w else Dict.getD d x 0 := by
  rw [Dict.getD, Dict.lookup_inc]
  by_cases hjx : j = x
  · subst hjx
    simp
  · simp [hjx, Dict.getD]

theorem Dict.inc_congr {d₁ d₂ : Dict ℚ} (h : Dict.Equiv d₁ d₂) (j : NodeId) (w : ℚ) :
    Dict.Equiv (Dict.inc d₁ j w) (Dict.inc d₂ j w) := by
  intro x
  rw [Dict.lookup_inc, Dict.lookup_inc, h.getD_eq, h x]

theorem Dict.inc_comm (d : Dict ℚ) (j₁ j₂ : NodeId) (w₁ w₂ : ℚ) :
    Dict.Equiv (Dict.inc (Dict.inc d j₁ w₁) j₂ w₂)
      (Dict.inc (Dict.inc d j₂ w₂) j₁ w₁) := by
  intro x
  by_cases h1 : j₁ = x <;> by_cases h2 : j₂ = x
  · subst h1
    subst h2
    simp [Dict.lookup_inc, Dict.getD_inc]
    ring
  · subst h1
    simp [Dict.lookup_inc, Dict.getD_inc, h2]
  · subst h2
    simp [Dict.lookup_inc, Dict.getD_inc, h1]
  · simp [Dict.lookup_inc, Dict.getD_inc, h1, h2]

theorem Dict.incApply_cons (d : Dict ℚ) (p : NodeId × ℚ) (t : List (NodeId × ℚ)) :
    Dict.incApply d (p :: t) = Dict.incApply (Dict.inc d p.1 p.2) t := rfl

theorem Dict.incApply_congr {d₁ d₂ : Dict ℚ} (h : Dict.Equiv d₁ d₂)
    (l : List (NodeId × ℚ)) : Dict.Equiv (Dict.incApply d₁ l) (Dict.incApply d₂ l) := by
  induction l generalizing d₁ d₂ with
  | nil => exact h
  | cons p t ih =>
    rw [Dict.incApply_cons, Dict.incApply_cons]
    exact ih (Dict.inc_congr h p.1 p.2)

theorem Dict.incApply_inc_comm (d : Dict ℚ) (j : NodeId) (w : ℚ) (l : List (NodeId × ℚ)) :
    Dict.Equiv (Dict.incApply (Dict.inc d j w) l) (Dict.inc (Dict.incApply d l) j w) := by
  induction l generalizing d with
  | nil => exact Dict.Equiv.rfl
  | cons p t ih =>
    rw [Dict.incApply_cons, Dict.incApply_cons]
    refine Dict.Equiv.trans ?_ (ih (Dict.inc d p.1 p.2))
    exact Dict.incApply_congr (Dict.inc_comm d j p.1 w p.2) t

theorem Dict.incApply_comm (d : Dict ℚ) (l₁ l₂ : List (NodeId × ℚ)) :
    Dict.Equiv (Dict.incApply (Dict.incApply d l₁) l₂)
      (Dict.incApply (Dict.incApply d l₂) l₁) := by
  induction l₁ generalizing d with
  | nil => exact Dict.Equiv.rfl
  | cons p t ih =>
    rw [Dict.incApply_cons, Dict.incApply_cons]
    refine Dict.Equiv.trans (ih (Dict.inc d p.1 p.2)) ?_
    exact Dict.incApply_congr (Dict.incApply_inc_comm d p.1 p.2 l₂) t

theorem Dict.keys_incApply_nodup {d : Dict ℚ} (h : (Dict.keys d).Nodup)
    (l : List (NodeId × ℚ)) : (Dict.keys (Dict.incApply d l)).Nodup := by
  induction l generalizing d with
  | nil => exact h
  | cons p t ih =>
    rw [Dict.incApply_cons]
    exact ih (Dict.keys_set_nodup h p.1 _)

theorem Dict.lookup_incApply_entries (l : List (NodeId × ℚ))
    (hl : (l.map Prod.fst).Nodup) (n : Dict ℚ) (x : NodeId) :
    Dict.lookup (Dict.incApply n l) x =
      (Dict.lookup l x).elim (Dict.lookup n x) (fun v => some (Dict.getD n x 0 + v)) := by
  induction l generalizing n with
  | nil => simp [Dict.incApply]
  | cons p t ih =>
    obtain ⟨k, v⟩ := p
    simp only [List.map_cons, List.nodup_cons] at hl
    rw [Dict.incApply_cons]
    by_cases hkx : k = x
    · subst hkx
      have hnone : Dict.lookup t k = none :=
        Dict.lookup_eq_none_of_not_mem_keys (by simpa [Dict.keys] using hl.1)
      rw [ih hl.2 (Dict.inc n k v)]
      rw [hnone, Dict.lookup_cons_self]
      simp only [Option.elim]
      rw [Dict.lookup_inc, if_pos rfl]
    · rw [ih hl.2 (Dict.inc n k v)]
      rw [Dict.lookup_cons_ne hkx, Dict.getD_inc, Dict.lookup_inc, if_neg hkx, if_neg hkx]

theorem Dict.set_set_comm_ne {k₁ k₂ : NodeId} (h : ¬k₁ = k₂) (d : Dict ℚ) (v₁ v₂ : ℚ) :
    Dict.Equiv (Dict.set (Dict.set d k₁ v₁) k₂ v₂) (Dict.set (Dict.set d k₂ v₂) k₁ v₁) := by
  intro x
  rw [Dict.lookup_set, Dict.lookup_set, Dict.lookup_set, Dict.lookup_set]
  by_cases h1 : k₁ = x <;> by_cases h2 : k₂ = x
  · exact absurd (h1.trans h2.symm) h
  · simp [h1, h2]
  · simp [h1, h2]
  · simp [h1, h2]

theorem Dict.lookup_set_ne_key {α : Type} {k x : NodeId} (h : ¬k = x) (d : Dict α) (v : α) :
    Dict.lookup (Dict.set d k v) x = Dict.lookup d x := by
  rw [Dict.lookup_set, if_neg h]

theorem Dict.getD_set_ne_key {k x : NodeId} (h : ¬k = x) (d : Dict ℚ) (v : ℚ) :
    Dict.getD (Dict.set d k v) x 0 = Dict.getD d x 0 := by
  rw [Dict.getD, Dict.lookup_set_ne_key h, Dict.getD]

theorem subStepFull_congr (L : Dict ℚ) {n₁ n₂ : Dict ℚ} (h : Dict.Equiv n₁ n₂)
    (k : NodeId) : Dict.Equiv (subStepFull L n₁ k) (subStepFull L n₂ k) := by
  simp only [subStepFull]
  rw [h k, h.getD_eq]
  by_cases hs : (Dict.lookup n₂ k).isSome
  · rw [if_pos hs, if_pos hs]
    intro x
    rw [Dict.lookup_set, Dict.lookup_set]
    by_cases hkx : k = x
    · simp [hkx]
    · simp [hkx, h x]
  · rw [if_neg hs, if_neg hs]
    exact h

theorem subStepFull_comm (L n : Dict ℚ) (k₁ k₂ : NodeId) :
    Dict.Equiv (subStepFull L (subStepFull L n k₁) k₂)
      (subStepFull L (subStepFull L n k₂) k₁) := by
  by_cases h12 : k₁ = k₂
  · subst h12
    exact Dict.Equiv.rfl
  · have h21 : ¬k₂ = k₁ := fun hh => h12 hh.symm
    by_cases hs1 : (Dict.lookup n k₁).isSome <;> by_cases hs2 : (Dict.lookup n k₂).isSome <;>
      simp only [subStepFull, hs1, hs2, if_true, if_false,
        Dict.lookup_set_ne_key h12, Dict.lookup_set_ne_key h21,
        Dict.getD_set_ne_key h12, Dict.getD_set_ne_key h21,
        Bool.false_eq_true, if_pos, if_neg]
    · exact Dict.set_set_comm_ne h12 n _ _
    · exact Dict.Equiv.rfl
    · exact Dict.Equiv.rfl
    · exact Dict.Equiv.rfl

theorem subStepPerPaper_congr (thr : Option ℚ) (L : Dict ℚ) {n₁ n₂ : Dict ℚ}
    (h : Dict.Equiv n₁ n₂) (k : NodeId) :
    Dict.Equiv (subStepPerPaper thr L n₁ k) (subStepPerPaper thr L n₂ k) := by
  simp only [subStepPerPaper]
  rw [h.getD_eq]
  by_cases hs : (Dict.lookup L k).isNone
  · rw [if_pos hs, if_pos hs]
    exact h
  · rw [if_neg hs, if_neg hs]
    intro x
    rw [Dict.lookup_set, Dict.lookup_set]
    by_cases hkx : k = x
    · simp [hkx]
    · simp [hkx, h x]

theorem subStepPerPaper_comm (thr : Option ℚ) (L n : Dict ℚ) (k₁ k₂ : NodeId) :
    Dict.Equiv (subStepPerPaper thr L (subStepPerPaper thr L n k₁) k₂)
      (subStepPerPaper thr L (subStepPerPaper thr L n k₂) k₁) := by
  by_cases h12 : k₁ = k₂
  · subst h12
    exact Dict.Equiv.rfl
  · have h21 : ¬k₂ = k₁ := fun hh => h12 hh.symm
    by_cases hs1 : (Dict.lookup L k₁).isNone <;> by_cases hs2 : (Dict.lookup L k₂).isNone <;>
      simp only [subStepPerPaper, hs1, hs2, if_true, if_false,
        Dict.getD_set_ne_key h12, Dict.getD_set_ne_key h21, Bool.false_eq_true]
    · exact Dict.Equiv.rfl
    · exact Dict.Equiv.rfl
    · exact Dict.Equiv.rfl
    · exact Dict.set_set_comm_ne h12 n _ _

theorem Dict.incApply_result_congr {delta₁ delta₂ n₁ n₂ : Dict ℚ}
    (hd₁ : (Dict.keys delta₁).Nodup) (hd₂ : (Dict.keys delta₂).Nodup)
    (hdelta : Dict.Equiv delta₁ delta₂) (hn : Dict.Equiv n₁ n₂) :
    Dict.Equiv (Dict.incApply n₁ delta₁) (Dict.incApply n₂ delta₂) := by
  intro x
  rw [Dict.lookup_incApply_entries delta₁ (by simpa [Dict.keys] using hd₁) n₁ x,
    Dict.lookup_incApply_entries delta₂ (by simpa [Dict.keys] using hd₂) n₂ x]
  simp only [hdelta x, hn x, hn.getD_eq]

theorem list_sum_map_const {α : Type} (l : List α) (c : ℚ) :
    (l.map fun _ => c).sum = l.length * c := by
  induction l with
  | nil => simp
  | cons x t ih =>
    simp [ih]
    ring

theorem list_sum_map_div_mul {α : Type} (l : List α) (f : α → ℚ) (a c : ℚ) :
    (l.map fun j => a * (f j / c)).sum = a / c * (l.map f).sum := by
  induction l with
  | nil => simp
  | cons x t ih =>
    simp [ih]
    ring

theorem closureNk_length_pos (neighbors_map : Dict (List NodeId)) (k : NodeId) :
    0 < (closureNk neighbors_map k).length := by
  simp [closureNk, dedupFirst, dedupFirstAux]

theorem shareDeltas_sum (degrees : Dict ℚ) (beta : ℕ) (Nk : List NodeId)
    (h : 0 < Nk.length) (amount : ℚ) :
    Dict.sumValues (shareDeltas degrees beta Nk amount) = amount := by
  show ((shareDeltas degrees beta Nk amount).map Prod.snd).sum = amount
  have hlen : (Nk.length : ℚ) ≠ 0 := Nat.cast_ne_zero.mpr h.ne'
  rw [shareDeltas]
  by_cases hd : closureDenom degrees beta Nk ≤ 0
  · rw [if_pos hd, List.map_map]
    have : (Prod.snd ∘ fun j : NodeId => (j, amount / (Nk.length : ℚ)))
        = fun _ : NodeId => amount / (Nk.length : ℚ) := rfl
    rw [this, list_sum_map_const, mul_comm, div_mul_cancel₀ _ hlen]
  · rw [if_neg hd, List.map_map]
    have hc : closureDenom degrees beta Nk ≠ 0 := (lt_of_not_le hd).ne'
    have : (Prod.snd ∘ fun j : NodeId =>
        (j, amount * (Dict.getD degrees j 0 ^ beta / closureDenom degrees beta Nk)))
        = fun j : NodeId =>
          amount * (Dict.getD degrees j 0 ^ beta / closureDenom degrees beta Nk) :=
      rfl
    rw [this, list_sum_map_div_mul]
    show amount / closureDenom degrees beta Nk * closureDenom degrees beta Nk = amount
    rw [div_mul_cancel₀ _ hc]

theorem sumValues_delta_fold (δ : NodeId → List (NodeId × ℚ)) (sources : List NodeId)
    (dt : Dict ℚ) :
    Dict.sumValues (sources.foldl (fun d k => Dict.incApply d (δ k)) dt)
      = Dict.sumValues dt + (sources.map fun k => Dict.sumValues (δ k)).sum := by
  induction sources generalizing dt with
  | nil => simp
  | cons k t ih =>
    simp only [List.foldl_cons, List.map_cons, List.sum_cons]
    rw [ih, Dict.sumValues_incApply]
    ring

theorem subStepFull_isSome_inv (L n : Dict ℚ) (k : NodeId)
    (hn : ∀ x, (Dict.lookup n x).isSome = (Dict.lookup L x).isSome) :
    ∀ x, (Dict.lookup (subStepFull L n k) x).isSome = (Dict.lookup L x).isSome := by
  intro x
  rw [subStepFull]
  by_cases hs : (Dict.lookup n k).isSome
  · rw [if_pos hs, Dict.lookup_set]
    by_cases hkx : k = x
    · subst hkx
      simp [← hn k, hs]
    · rw [if_neg hkx, hn x]
  · rw [if_neg hs]
    exact hn x

theorem sumValues_subFull_fold (L : Dict ℚ) (sources : List NodeId) (n : Dict ℚ)
    (hn : ∀ x, (Dict.lookup n x).isSome = (Dict.lookup L x).isSome) :
    Dict.sumValues (sources.foldl (subStepFull L) n)
      = Dict.sumValues n - (sources.map fun k =>
          if (Dict.lookup L k).isSome then Dict.getD L k 0 else 0).sum := by
  induction sources generalizing n with
  | nil => simp
  | cons k t ih =>
    simp only [List.foldl_cons, List.map_cons, List.sum_cons]
    rw [ih (subStepFull L n k) (subStepFull_isSome_inv L n k hn)]
    by_cases hs : (Dict.lookup L k).isSome
    · rw [if_pos hs]
      rw [show subStepFull L n k
          = Dict.set n k (Dict.getD n k 0 - Dict.getD L k 0) from by
        rw [subStepFull, if_pos (by rw [hn k]; exact hs)]]
      rw [Dict.sumValues_set]
      ring
    · rw [if_neg hs]
      rw [show subStepFull L n k = n from by
        rw [subStepFull, if_neg (by rw [hn k]; exact hs)]]
      ring

theorem fullSourceDeltas_sum (L degrees : Dict ℚ) (neighbors_map : Dict (List NodeId))
    (beta : ℕ) (k : NodeId) :
    Dict.sumValues (fullSourceDeltas L degrees neighbors_map beta k)
      = if (Dict.lookup L k).isNone then 0
        else if Dict.getD L k 0 ≤ 0 then 0 else Dict.getD L k 0 := by
  simp only [fullSourceDeltas]
  by_cases h1 : (Dict.lookup L k).isNone
  · rw [if_pos h1, if_pos h1]
    rfl
  · rw [if_neg h1, if_neg h1]
    by_cases h2 : Dict.getD L k 0 ≤ 0
    · rw [if_pos h2, if_pos h2]
      rfl
    · rw [if_neg h2, if_neg h2]
      exact shareDeltas_sum degrees beta _ (closureNk_length_pos neighbors_map k) _

theorem Dict.lookup_isSome_of_mem_keys {α : Type} {d : Dict α} {x : NodeId}
    (h : x ∈ Dict.keys d) : (Dict.lookup d x).isSome := by
  induction d with
  | nil => simp [Dict.keys] at h
  | cons p t ih =>
    obtain ⟨a, w⟩ := p
    by_cases hax : a = x
    · subst hax
      simp
    · rw [Dict.lookup_cons_ne hax]
      simp only [Dict.keys, List.map_cons, List.mem_cons] at h
      rcases h with h | h
      · exact absurd h.symm hax
      · exact ih (by simpa [Dict.keys] using h)

theorem Dict.set_getD_self {d : Dict ℚ} {k : NodeId} (h : (Dict.lookup d k).isSome) :
    Dict.set d k (Dict.getD d k 0) = d := by
  induction d with
  | nil => simp at h
  | cons p t ih =>
    obtain ⟨a, w⟩ := p
    by_cases hak : a = k
    · subst hak
      rw [Dict.set_cons_self]
      simp [Dict.getD]
    · rw [Dict.set_cons_ne hak]
      rw [Dict.lookup_cons_ne hak] at h
      rw [show Dict.getD ((a, w) :: t) k 0 = Dict.getD t k 0 from by
        rw [Dict.getD, Dict.lookup_cons_ne hak, Dict.getD]]
      rw [ih h]

theorem Dict.inc_zero {d : Dict ℚ} {k : NodeId} (h : (Dict.lookup d k).isSome) :
    Dict.inc d k 0 = d := by
  rw [Dict.inc, add_zero]
  exact Dict.set_getD_self h

theorem Dict.incApply_zeros (d : Dict ℚ) :
    ∀ z : List (NodeId × ℚ), (∀ p ∈ z, p.2 = 0 ∧ (Dict.lookup d p.1).isSome) →
      Dict.incApply d z = d
  | [], _ => rfl
  | (k, v) :: t, hz => by
    have hk := hz (k, v) (List.mem_cons_self _ _)
    rw [show Dict.incApply d ((k, v) :: t) = Dict.incApply (Dict.inc d k v) t from rfl]
    rw [show v = (0 : ℚ) from hk.1, Dict.inc_zero hk.2]
    exact Dict.incApply_zeros d t (fun p hp => hz p (List.mem_cons_of_mem _ hp))

theorem Dict.keys_foldl_set_subset {α : Type} (g : NodeId × ℚ → α) :
    ∀ (d : Dict ℚ) (acc : Dict α) (x : NodeId),
      x ∈ Dict.keys (d.foldl (fun acc p => Dict.set acc p.1 (g p)) acc) →
      x ∈ Dict.keys acc ∨ x ∈ Dict.keys d
  | [], _, _, hx => Or.inl hx
  | (k, v) :: t, acc, x, hx => by
    rcases Dict.keys_foldl_set_subset g t (Dict.set acc k (g (k, v))) x hx with h | h
    · rw [Dict.keys_set] at h
      by_cases hk : k ∈ Dict.keys acc
      · rw [if_pos hk] at h
        exact Or.inl h
      · rw [if_neg hk] at h
        rcases List.mem_append.mp h with h1 | h1
        · exact Or.inl h1
        · simp at h1
          subst h1
          exact Or.inr (by simp [Dict.keys])
    · refine Or.inr ?_
      simp only [Dict.keys, List.map_cons, List.mem_cons]
      exact Or.inr (by simpa [Dict.keys] using h)

theorem Dict.lookup_copyD_eq_none {d : Dict ℚ} {x : NodeId} (h : x ∉ Dict.keys d) :
    Dict.lookup (Dict.copyD d) x = none := by
  refine Dict.lookup_eq_none_of_not_mem_keys ?_
  intro hx
  rcases Dict.keys_foldl_set_subset (fun p => p.2) d [] x hx with h1 | h1
  · simp [Dict.keys] at h1
  · exact h h1

@[simp]
theorem Dict.incApply_nil (d : Dict ℚ) : Dict.incApply d [] = d := rfl

theorem Dict.not_mem_keys_copyD {d : Dict ℚ} {x : NodeId} (h : x ∉ Dict.keys d) :
    x ∉ Dict.keys (Dict.copyD d) := by
  intro hm
  have := Dict.lookup_isSome_of_mem_keys hm
  rw [Dict.lookup_copyD_eq_none h] at this
  simp at this

/-! ## Claim theorems -/

/--
Claim C4 (order independence / simultaneity): for every load snapshot, degree
map and neighbor map, and every pair of sources `A`, `B`, redistributing with
source list `[A, B]` yields the same result map (Python dict equality) as
redistributing with `[B, A]`, for both the full-mode and the per-paper
redistribution functions.  All per-source deltas are computed from the frozen
pre-round snapshot, so accumulation commutes.
-/
theorem redistribution_order_independent (loads degrees : Dict ℚ)
    (neighbors_map : Dict (List NodeId)) (beta : ℕ) (sw2_threshold : Option ℚ)
    (A B : NodeId) :
    Dict.Equiv
      (proportional_redistribute_sources_full loads degrees [A, B] neighbors_map beta)
      (proportional_redistribute_sources_full loads degrees [B, A] neighbors_map beta)
    ∧ Dict.Equiv
      (proportional_redistribute_sources_per_paper loads degrees [A, B] neighbors_map beta
        sw2_threshold)
      (proportional_redistribute_sources_per_paper loads degrees [B, A] neighbors_map beta
        sw2_threshold) := by
  constructor
  · simp only [proportional_redistribute_sources_full, List.foldl_cons, List.foldl_nil]
    refine Dict.incApply_result_congr ?_ ?_ ?_ ?_
    · exact Dict.keys_incApply_nodup
        (Dict.keys_incApply_nodup (Dict.zerosOf_keys_nodup loads) _) _
    · exact Dict.keys_incApply_nodup
        (Dict.keys_incApply_nodup (Dict.zerosOf_keys_nodup loads) _) _
    · exact Dict.incApply_comm (Dict.zerosOf loads) _ _
    · exact subStepFull_comm (Dict.copyD loads) (Dict.copyD (Dict.copyD loads)) A B
  · simp only [proportional_redistribute_sources_per_paper, List.foldl_cons,
      List.foldl_nil]
    refine Dict.incApply_result_congr ?_ ?_ ?_ ?_
    · exact Dict.keys_incApply_nodup
        (Dict.keys_incApply_nodup (Dict.zerosOf_keys_nodup loads) _) _
    · exact Dict.keys_incApply_nodup
        (Dict.keys_incApply_nodup (Dict.zerosOf_keys_nodup loads) _) _
    · exact Dict.incApply_comm (Dict.zerosOf loads) _ _
    · exact subStepPerPaper_comm sw2_threshold (Dict.copyD loads)
        (Dict.copyD (Dict.copyD loads)) A B

/--
Claim C3 (concrete full-mode scenario): with loads `\x7bSw1:10, Sw2:60, Sw3:5\x7d`,
degrees `\x7bSw1:3, Sw2:4, Sw3:3\x7d`, neighbors `Sw1:[Sw2], Sw2:[Sw1,Sw3],
Sw3:[Sw2]`, sources `[Sw2]` and `beta = 1`, full-mode redistribution returns
exactly `\x7bSw1:28, Sw2:24, Sw3:23\x7d`, and the total load is 75 before and 75
after.
-/
theorem full_redistribution_concrete_scenario :
    proportional_redistribute_sources_full
      [("Sw1", 10), ("Sw2", 60), ("Sw3", 5)]
      [("Sw1", 3), ("Sw2", 4), ("Sw3", 3)]
      ["Sw2"]
      [("Sw1", ["Sw2"]), ("Sw2", ["Sw1", "Sw3"]), ("Sw3", ["Sw2"])]
      1
      = [("Sw1", 28), ("Sw2", 24), ("Sw3", 23)]
    ∧ Dict.sumValues [("Sw1", 10), ("Sw2", 60), ("Sw3", 5)] = 75
    ∧ Dict.sumValues [("Sw1", 28), ("Sw2", 24), ("Sw3", 23)] = 75 := by
  refine ⟨?_, by norm_num [Dict.sumValues], by norm_num [Dict.sumValues]⟩
  norm_num +decide [proportional_redistribute_sources_full, fullSourceDeltas, shareDeltas,
    closureNk, closureDenom, dedupFirst, dedupFirstAux, Dict.incApply, Dict.inc,
    subStepFull, Dict.copyD, Dict.zerosOf, Dict.set, Dict.getD, Dict.lookup]

/--
Claim C1 evaluation (excess-only redistribution of the bottleneck `Sw2`): at
the snapshot `\x7bSw1:10, Sw2:60, Sw3:5\x7d` with threshold 50, the per-paper
function removes the excess `10` from `Sw2` but also hands `Sw2` back its own
degree-weighted share `10 * 4/10 = 4` of that excess, so `Sw2` ends at `54`,
not at the threshold `50` claimed by the spec and by the function's own
docstring; the total load is conserved at 75.
-/
theorem per_paper_sw2_exceeds_threshold_eval :
    proportional_redistribute_sources_per_paper
      [("Sw1", 10), ("Sw2", 60), ("Sw3", 5)]
      [("Sw1", 3), ("Sw2", 4), ("Sw3", 3)]
      ["Sw2"]
      [("Sw1", ["Sw2"]), ("Sw2", ["Sw1", "Sw3"]), ("Sw3", ["Sw2"])]
      1
      (some 50)
      = [("Sw1", 13), ("Sw2", 54), ("Sw3", 8)]
    ∧ ((54 : ℚ) ≠ 50)
    ∧ Dict.sumValues [("Sw1", 13), ("Sw2", 54), ("Sw3", 8)] = 75 := by
  refine ⟨?_, by norm_num, by norm_num [Dict.sumValues]⟩
  norm_num +decide [proportional_redistribute_sources_per_paper, perPaperSourceDeltas,
    perPaperAmount, shareDeltas, closureNk, closureDenom, dedupFirst, dedupFirstAux,
    Dict.incApply, Dict.inc, subStepPerPaper, Dict.copyD, Dict.zerosOf, Dict.set,
    Dict.getD, Dict.lookup]

/--
Claim C2 (full-mode conservation): for every load snapshot with no duplicate
keys and nonnegative loads, every degree map, every neighbor map, every source
list and every exponent, the sum of the values of the map returned by
`proportional_redistribute_sources_full` equals the sum of the values of the
input snapshot: each processed source loses exactly its pre-round load, and the
degree-weighted (or even-split) shares of that load sum back to it exactly.
-/
theorem full_redistribution_conserves_total (loads degrees : Dict ℚ)
    (sources : List NodeId) (neighbors_map : Dict (List NodeId)) (beta : ℕ)
    (hnodup : (Dict.keys loads).Nodup) (hnonneg : ∀ p ∈ loads, 0 ≤ p.2) :
    Dict.sumValues
      (proportional_redistribute_sources_full loads degrees sources neighbors_map beta)
      = Dict.sumValues loads := by
  simp only [proportional_redistribute_sources_full]
  rw [Dict.copyD_eq_self hnodup, Dict.copyD_eq_self hnodup]
  rw [Dict.sumValues_incApply,
    sumValues_delta_fold (fullSourceDeltas loads degrees neighbors_map beta) sources
      (Dict.zerosOf loads),
    sumValues_subFull_fold loads sources loads (fun _ => rfl),
    Dict.sumValues_zerosOf]
  have hmap : (sources.map fun k =>
      Dict.sumValues (fullSourceDeltas loads degrees neighbors_map beta k))
      = sources.map fun k =>
        if (Dict.lookup loads k).isSome then Dict.getD loads k 0 else 0 := by
    refine List.map_congr_left ?_
    intro k _
    rw [fullSourceDeltas_sum]
    cases hl : Dict.lookup loads k with
    | none =>
      simp [hl]
    | some v =>
      have hv0 : 0 ≤ v := hnonneg (k, v) (Dict.mem_of_lookup_eq_some hl)
      have hgd : Dict.getD loads k 0 = v := by
        rw [Dict.getD, hl]
        rfl
      by_cases h2 : Dict.getD loads k 0 ≤ 0
      · have : v = 0 := le_antisymm (hgd ▸ h2) hv0
        simp [hl, h2, hgd, this]
      · simp [hl, h2]
  rw [hmap]
  ring

/-- Witness for C2 at the concrete scenario of the spec. -/
theorem full_redistribution_conserves_total_witness :
    (Dict.keys [("Sw1", (10 : ℚ)), ("Sw2", 60), ("Sw3", 5)]).Nodup
    ∧ (∀ p ∈ [("Sw1", (10 : ℚ)), ("Sw2", 60), ("Sw3", 5)], 0 ≤ p.2)
    ∧ Dict.sumValues
      (proportional_redistribute_sources_full
        [("Sw1", 10), ("Sw2", 60), ("Sw3", 5)]
        [("Sw1", 3), ("Sw2", 4), ("Sw3", 3)]
        ["Sw2"]
        [("Sw1", ["Sw2"]), ("Sw2", ["Sw1", "Sw3"]), ("Sw3", ["Sw2"])]
        1)
      = Dict.sumValues [("Sw1", (10 : ℚ)), ("Sw2", 60), ("Sw3", 5)] :=
  ⟨by simp [Dict.keys], by norm_num,
    full_redistribution_conserves_total
      [("Sw1", 10), ("Sw2", 60), ("Sw3", 5)]
      [("Sw1", 3), ("Sw2", 4), ("Sw3", 3)]
      ["Sw2"]
      [("Sw1", ["Sw2"]), ("Sw2", ["Sw1", "Sw3"]), ("Sw3", ["Sw2"])]
      1
      (by simp [Dict.keys])
      (by norm_num)⟩

/--
Claim C9 (graceful degradation): an empty source list returns a map equal to
the input snapshot for both redistribution functions; a source id absent from
the load map is skipped and contributes nothing; and degree / neighbor lookups
of an unknown node id default to `0` / `[]`.  All lookups in the redistribution
code use defaults, so the embedded functions are total: no such input raises.
-/
theorem redistribution_graceful_degradation (loads degrees : Dict ℚ)
    (neighbors_map : Dict (List NodeId)) (beta : ℕ) (sw2_threshold : Option ℚ)
    (x : NodeId) (sources : List NodeId) :
    ((Dict.keys loads).Nodup →
      Dict.Equiv (proportional_redistribute_sources_full loads degrees [] neighbors_map beta)
        loads
      ∧ Dict.Equiv (proportional_redistribute_sources_per_paper loads degrees []
          neighbors_map beta sw2_threshold) loads)
    ∧ (x ∉ Dict.keys loads →
      proportional_redistribute_sources_full loads degrees (x :: sources) neighbors_map beta
        = proportional_redistribute_sources_full loads degrees sources neighbors_map beta
      ∧ proportional_redistribute_sources_per_paper loads degrees (x :: sources)
          neighbors_map beta sw2_threshold
        = proportional_redistribute_sources_per_paper loads degrees sources neighbors_map
          beta sw2_threshold)
    ∧ (x ∉ Dict.keys topoDegrees → topoDegree x = 0)
    ∧ (x ∉ Dict.keys topoAdj → topoNeighbors x = []) := by
  refine ⟨fun hnodup => ⟨?_, ?_⟩, fun hx => ?_, fun hx => ?_, fun hx => ?_⟩
  · simp only [proportional_redistribute_sources_full, List.foldl_nil]
    rw [Dict.copyD_eq_self hnodup, Dict.copyD_eq_self hnodup]
    refine Dict.Equiv.of_eq (Dict.incApply_zeros loads (Dict.zerosOf loads) ?_)
    intro p hp
    rw [Dict.zerosOf_eq_map hnodup] at hp
    obtain ⟨q, hq, rfl⟩ := List.mem_map.mp hp
    exact ⟨rfl, Dict.lookup_isSome_of_mem_keys
      (show Prod.fst q ∈ List.map Prod.fst loads from List.mem_map_of_mem Prod.fst hq)⟩
  · simp only [proportional_redistribute_sources_per_paper, List.foldl_nil]
    rw [Dict.copyD_eq_self hnodup, Dict.copyD_eq_self hnodup]
    refine Dict.Equiv.of_eq (Dict.incApply_zeros loads (Dict.zerosOf loads) ?_)
    intro p hp
    rw [Dict.zerosOf_eq_map hnodup] at hp
    obtain ⟨q, hq, rfl⟩ := List.mem_map.mp hp
    exact ⟨rfl, Dict.lookup_isSome_of_mem_keys
      (show Prod.fst q ∈ List.map Prod.fst loads from List.mem_map_of_mem Prod.fst hq)⟩
  · have hnone : Dict.lookup (Dict.copyD loads) x = none := Dict.lookup_copyD_eq_none hx
    have hnone2 : Dict.lookup (Dict.copyD (Dict.copyD loads)) x = none :=
      Dict.lookup_copyD_eq_none (Dict.not_mem_keys_copyD hx)
    constructor
    · simp only [proportional_redistribute_sources_full, List.foldl_cons]
      rw [show fullSourceDeltas (Dict.copyD loads) degrees neighbors_map beta x = []
          from by rw [fullSourceDeltas, hnone]; simp]
      rw [show subStepFull (Dict.copyD loads) (Dict.copyD (Dict.copyD loads)) x
          = Dict.copyD (Dict.copyD loads) from by
        rw [subStepFull, hnone2]
        simp]
      rw [Dict.incApply_nil]
    · simp only [proportional_redistribute_sources_per_paper, List.foldl_cons]
      rw [show perPaperSourceDeltas (Dict.copyD loads) degrees neighbors_map beta
          sw2_threshold x = [] from by rw [perPaperSourceDeltas, hnone]; simp]
      rw [show subStepPerPaper sw2_threshold (Dict.copyD loads)
          (Dict.copyD (Dict.copyD loads)) x = Dict.copyD (Dict.copyD loads) from by
        rw [subStepPerPaper, hnone]
        simp]
      rw [Dict.incApply_nil]
  · rw [topoDegree, Dict.getD, Dict.lookup_eq_none_of_not_mem_keys hx]
    rfl
  · rw [topoNeighbors, Dict.getD, Dict.lookup_eq_none_of_not_mem_keys hx]
    rfl

/-- Witness for C9 at a one-node snapshot and the unknown id `Sw9`. -/
theorem redistribution_graceful_degradation_witness :
    (Dict.keys [("Sw1", (10 : ℚ))]).Nodup
    ∧ "Sw9" ∉ Dict.keys [("Sw1", (10 : ℚ))]
    ∧ Dict.Equiv (proportional_redistribute_sources_full [("Sw1", 10)] [] [] [] 1)
        [("Sw1", 10)]
    ∧ proportional_redistribute_sources_full [("Sw1", 10)] [] ["Sw9"] [] 1
      = proportional_redistribute_sources_full [("Sw1", 10)] [] [] [] 1
    ∧ topoDegree "Sw9" = 0
    ∧ topoNeighbors "Sw9" = [] := by
  have h1 : (Dict.keys [("Sw1", (10 : ℚ))]).Nodup := by simp [Dict.keys]
  have h2 : "Sw9" ∉ Dict.keys [("Sw1", (10 : ℚ))] := by simp [Dict.keys]
  have h3 : "Sw9" ∉ Dict.keys topoDegrees := by simp [Dict.keys, topoDegrees]
  have h4 : "Sw9" ∉ Dict.keys topoAdj := by simp [Dict.keys, topoAdj]
  have T := redistribution_graceful_degradation [("Sw1", 10)] [] [] 1 none "Sw9" []
  exact ⟨h1, h2, (T.1 h1).1, (T.2.1 h2).1, T.2.2.1 h3, T.2.2.2 h4⟩

set_option maxRecDepth 8192 in
/--
Claim C5 (fault-tree boundary cases): with all nine component reliabilities
equal to 1, `system_reliability` returns exactly 1 (only the all-up state has
nonzero probability and it does not satisfy the failure predicate); with all
nine equal to 0, it returns exactly 0 (only the all-down state has nonzero
probability, it satisfies the failure predicate, so `P_failure = 1`).
-/
theorem system_reliability_boundary_cases :
    system_reliability (expectedKeys.map fun k => (k, 1)) = Except.ok 1
    ∧ system_reliability (expectedKeys.map fun k => (k, 0)) = Except.ok 0 := by
  constructor
  · rw [system_reliability,
      show (expectedKeys.find? fun k =>
        (Dict.lookup (expectedKeys.map fun k => (k, (1 : ℚ))) k).isNone) = none
        from by decide]
    have hget1 : ∀ i ∈ List.range expectedKeys.length,
        Dict.getD (expectedKeys.map fun k => (k, (1 : ℚ))) (expectedKeys.getD i "") 0
          = 1 := by decide
    have hbit : ∀ mask ∈ List.range (2 ^ expectedKeys.length), mask ≠ 0 →
        ∃ i ∈ List.range expectedKeys.length, Nat.testBit mask i = true := by decide
    have hp : pFailure (expectedKeys.map fun k => (k, 1)) = 0 := by
      rw [pFailure]
      refine List.sum_eq_zero ?_
      intro y hy
      obtain ⟨mask, hmask, rfl⟩ := List.mem_map.mp hy
      by_cases h0 : mask = 0
      · subst h0
        rw [show sanFailure (stateDown 0) = false from by decide]
        simp
      · rw [show maskProb (expectedKeys.map fun k => (k, 1)) mask = 0 from by
          obtain ⟨i, hi, hbiti⟩ := hbit mask hmask h0
          rw [maskProb]
          refine List.prod_eq_zero (List.mem_map.mpr ⟨i, hi, ?_⟩)
          rw [if_pos hbiti, hget1 i hi]
          norm_num]
        simp
    norm_num [hp]
  · rw [system_reliability,
      show (expectedKeys.find? fun k =>
        (Dict.lookup (expectedKeys.map fun k => (k, (0 : ℚ))) k).isNone) = none
        from by decide]
    have hget0 : ∀ i ∈ List.range expectedKeys.length,
        Dict.getD (expectedKeys.map fun k => (k, (0 : ℚ))) (expectedKeys.getD i "") 0
          = 0 := by decide
    have hbit0 : ∀ mask ∈ List.range 511,
        ∃ i ∈ List.range expectedKeys.length, Nat.testBit mask i = false := by decide
    have h511 : ∀ i ∈ List.range expectedKeys.length, Nat.testBit 511 i = true := by
      decide
    have hmp : maskProb (expectedKeys.map fun k => (k, 0)) 511 = 1 := by
      rw [maskProb]
      refine List.prod_eq_one ?_
      intro y hy
      obtain ⟨i, hi, rfl⟩ := List.mem_map.mp hy
      rw [if_pos (h511 i hi), hget0 i hi]
      norm_num
    have hp : pFailure (expectedKeys.map fun k => (k, 0)) = 1 := by
      rw [pFailure, show (2 : ℕ) ^ expectedKeys.length = 511 + 1 from by decide,
        List.range_succ, List.map_append, List.sum_append]
      have hz : ((List.range 511).map fun mask =>
          if maskProb (expectedKeys.map fun k => (k, (0 : ℚ))) mask = 0 then 0
          else if sanFailure (stateDown mask)
            then maskProb (expectedKeys.map fun k => (k, (0 : ℚ))) mask else 0).sum
          = 0 := by
        refine List.sum_eq_zero ?_
        intro y hy
        obtain ⟨mask, hmask, rfl⟩ := List.mem_map.mp hy
        rw [show maskProb (expectedKeys.map fun k => (k, (0 : ℚ))) mask = 0 from by
          obtain ⟨i, hi, hbiti⟩ := hbit0 mask hmask
          rw [maskProb]
          refine List.prod_eq_zero (List.mem_map.mpr ⟨i, hi, ?_⟩)
          rw [hbiti, if_neg (by simp), hget0 i hi]]
        simp
      rw [hz]
      rw [List.map_singleton, List.sum_singleton, hmp,
        if_neg (one_ne_zero),
        if_pos (show sanFailure (stateDown 511) = true from by decide)]
      norm_num
    norm_num [hp]

/--
Claim C6 (missing-component error, raises-iff): `system_reliability` returns a
missing-key error exactly when at least one of the nine expected component
keys is absent from the input reliability map; when all nine are present it
returns a value.  The embedded function checks all nine keys up front and
performs only total operations afterwards, mirroring the Python loop that
raises `KeyError` at the first absent key.
-/
theorem system_reliability_ok_iff_keys_present (r : Dict ℚ) :
    (∃ v, system_reliability r = Except.ok v)
      ↔ ∀ k ∈ expectedKeys, (Dict.lookup r k).isSome := by
  rw [system_reliability]
  cases hf : expectedKeys.find? (fun k => (Dict.lookup r k).isNone) with
  | none =>
    constructor
    · intro _ k hk
      have h := List.find?_eq_none.mp hf k hk
      cases hl : Dict.lookup r k with
      | none => rw [hl] at h; simp at h
      | some v => simp
    · intro _
      exact ⟨_, rfl⟩
  | some k =>
    constructor
    · intro h
      obtain ⟨v, hv⟩ := h
      simp at hv
    · intro hall
      have hk : (Dict.lookup r k).isNone = true := by
        simpa using List.find?_some hf
      have hmem : k ∈ expectedKeys := List.mem_of_find?_eq_some hf
      have := hall k hmem
      rw [Option.isNone_iff_eq_none] at hk
      rw [hk] at this
      simp at this

/--
Claim C7, counterexample: the claim asserts that a load of 0 yields
reliability exactly 1 for every `t ≥ 0`, every `base_lambda` and every
`alpha`; but at `alpha = 0` the code computes `lambda = base_lambda * 0 ** 0 =
base_lambda` (Python evaluates `0.0 ** 0` to `1.0`), so with `t = 1`,
`base_lambda = 1` the result is `exp(-1) ≠ 1`.
-/
theorem reliability_R_zero_load_alpha_zero_ne_one :
    reliability_R 1 0 1 0 ≠ Except.ok 1 := by
  intro h
  rw [reliability_R, if_neg (by norm_num)] at h
  rw [Except.ok.injEq] at h
  rw [Real.exp_eq_one_iff] at h
  rw [lambda_L] at h
  norm_num at h

/--
Claim C7 as amended: `reliability_R` fails with the invalid-input error for
every `t < 0`; and for every `t ≥ 0`, every `base_lambda` and every exponent
`alpha ≥ 1`, a load of 0 yields reliability exactly 1 (the failure rate
`base_lambda * 0 ^ alpha` vanishes).
-/
theorem reliability_R_contract (t L base_lambda : ℚ) (alpha : ℕ) :
    (t < 0 → reliability_R t L base_lambda alpha
      = Except.error "Time t must be non-negative")
    ∧ (0 ≤ t → 1 ≤ alpha → reliability_R t 0 base_lambda alpha = Except.ok 1) := by
  constructor
  · intro ht
    rw [reliability_R, if_pos ht]
  · intro ht ha
    rw [reliability_R, if_neg (by exact not_lt.mpr ht)]
    rw [lambda_L, zero_pow (by omega : alpha ≠ 0)]
    norm_num

/-- Witness for C7 as amended, at `t = -1` and at `t = 2, alpha = 1`. -/
theorem reliability_R_contract_witness :
    reliability_R (-1) 5 1 1 = Except.error "Time t must be non-negative"
    ∧ reliability_R 2 0 1 1 = Except.ok 1 :=
  ⟨(reliability_R_contract (-1) 5 1 1).1 (by norm_num),
    (reliability_R_contract 2 0 1 1).2 (by norm_num) (by norm_num)⟩

/--
Claim C8, counterexample: the claim says `apply_after_trigger` never increases
the threshold, quantified over every `MitigationScheme` state; but the
constructor accepts any decay step, and with the dynamic scheme 3, threshold
50 and step `s = -1` the new threshold is `max 0 (50 - (-1)) = 51 > 50`.
-/
theorem apply_after_trigger_negative_step_increases :
    (MitigationScheme.apply_after_trigger
      ⟨3, 50, -1, 3, 50⟩).dynamic_threshold
      > (MitigationScheme.mk 3 50 (-1) 3 50).dynamic_threshold := by
  rw [MitigationScheme.apply_after_trigger]
  norm_num [MitigationScheme.is_dynamic]

/--
Claim C8 as amended: for every `MitigationScheme` state whose decay step and
current threshold are nonnegative (as they are for every scheme the simulation
constructs), `apply_after_trigger` never increases the threshold and never
makes it negative; for dynamic schemes (ids 3 and 4) it moves the threshold to
`max 0 (threshold - s)`, and for every other scheme id (the static schemes 1
and 2 included) it leaves the state unchanged.
-/
theorem apply_after_trigger_monotone (m : MitigationScheme) (hs : 0 ≤ m.s)
    (ht : 0 ≤ m.dynamic_threshold) :
    (MitigationScheme.apply_after_trigger m).dynamic_threshold ≤ m.dynamic_threshold
    ∧ 0 ≤ (MitigationScheme.apply_after_trigger m).dynamic_threshold
    ∧ (m.is_dynamic →
        (MitigationScheme.apply_after_trigger m).dynamic_threshold
          = max 0 (m.dynamic_threshold - m.s))
    ∧ (¬m.is_dynamic → MitigationScheme.apply_after_trigger m = m) := by
  rw [MitigationScheme.apply_after_trigger]
  by_cases hd : m.is_dynamic
  · rw [if_pos hd]
    refine ⟨?_, ?_, fun _ => rfl, fun h => absurd hd h⟩
    · exact max_le ht (by linarith)
    · exact le_max_left 0 _
  · rw [if_neg hd]
    exact ⟨le_refl _, ht, fun h => absurd h hd, fun _ => rfl⟩

/-- Witness for C8 as amended, at scheme 3 with threshold 50 and step 5. -/
theorem apply_after_trigger_monotone_witness :
    (MitigationScheme.apply_after_trigger ⟨3, 50, 5, 3, 50⟩).dynamic_threshold ≤ 50
    ∧ 0 ≤ (MitigationScheme.apply_after_trigger ⟨3, 50, 5, 3, 50⟩).dynamic_threshold :=
  ⟨(apply_after_trigger_monotone ⟨3, 50, 5, 3, 50⟩ (by norm_num) (by norm_num)).1,
    (apply_after_trigger_monotone ⟨3, 50, 5, 3, 50⟩ (by norm_num) (by norm_num)).2.1⟩

/--
Claim C10 (selection is insensitive to loads and reliabilities): for every
scheme state with a valid scheme id (1..4), every round index, excluded node
and candidate list, `select_sources` returns the same source list for any two
load maps and any two reliability maps: the predefined override tables cover
all four valid scheme ids, so the sort-based branch is never reached and the
result depends only on the scheme id, round index, excluded node, candidate
list and `top_k`.
-/
theorem select_sources_insensitive_to_loads_and_reliabilities
    (m : MitigationScheme)
    (hid : m.scheme_id = 1 ∨ m.scheme_id = 2 ∨ m.scheme_id = 3 ∨ m.scheme_id = 4)
    (loads₁ reliab₁ loads₂ reliab₂ : Dict ℚ) (overloaded_switch : NodeId)
    (all_switches : List NodeId) (redis_index : ℤ) :
    MitigationScheme.select_sources m loads₁ reliab₁ overloaded_switch all_switches
      redis_index
      = MitigationScheme.select_sources m loads₂ reliab₂ overloaded_switch all_switches
        redis_index := by
  rcases hid with h | h | h | h <;>
    simp only [MitigationScheme.select_sources, predefined_phi, h] <;> norm_num

/-- Witness for C10: scheme 1 with two unrelated load/reliability maps. -/
theorem select_sources_insensitive_witness :
    ((3 : ℕ) = 1 ∨ (3 : ℕ) = 2 ∨ (3 : ℕ) = 3 ∨ (3 : ℕ) = 4)
    ∧ MitigationScheme.select_sources ⟨3, 50, 5, 3, 50⟩ [("Sw1", 100)] [("Sw3", 0)]
        "Sw2" ["Sw1", "Sw2", "Sw3", "Sw4", "Sw5"] 1
      = MitigationScheme.select_sources ⟨3, 50, 5, 3, 50⟩ [] [("Sw5", 1)]
        "Sw2" ["Sw1", "Sw2", "Sw3", "Sw4", "Sw5"] 1 :=
  ⟨Or.inr (Or.inr (Or.inl rfl)),
    select_sources_insensitive_to_loads_and_reliabilities ⟨3, 50, 5, 3, 50⟩
      (Or.inr (Or.inr (Or.inl rfl))) [("Sw1", 100)] [("Sw3", 0)] [] [("Sw5", 1)]
      "Sw2" ["Sw1", "Sw2", "Sw3", "Sw4", "Sw5"] 1⟩

end SanProj
